import Mathlib

/-!
Verification development for the `signals-implement` reactive engine
(`src/index.ts`, with the earlier revision in `src/unnamed/part_000`).

The engine is a shallow state-passing embedding: every node (`Signal`,
`Computed`, `Effect`) is identified by its `id : Nat`, and the whole
process-wide mutable world (node fields, the evaluation stack
`EffectNode.effectStack`, the `Schedule` singleton, `Signal`'s batch
state) is one record `GSt`.  Methods become functions `GSt → GSt`.
Derivation functions and effect bodies are arbitrary user code, so they
appear as explicit parameters (state transformers that either return a
value or throw); a per-node invocation counter and a trace of scheduler
runs are carried in the state as instrumentation (mirroring the
source's `log(...)` calls).
-/

namespace Signals

/-- Exceptions thrown by user derivation functions / effect bodies are
opaque; we only track their identity. -/
abbrev Err := Nat

/-- Per-node fields of the abstract class `EffectNode` (src/index.ts lines
37-44): `prev` is the key set of the upstream record, `next` of the
downstream record, plus the `priority` weight and the `dirty` flag.
Records keyed by node id are modelled as duplicate-free lists of ids. -/
structure GNode where
  prev : List Nat
  next : List Nat
  priority : Int
  dirty : Bool
  deriving DecidableEq, Repr

/-- A freshly constructed `EffectNode`: `priority = 1`, `dirty = false`,
no edges (src/index.ts lines 40-43). -/
def GNode.init : GNode := { prev := [], next := [], priority := 1, dirty := false }

/-- The whole mutable world of `src/index.ts`:
nodes by id, the evaluation stack (`EffectNode.effectStack`, head = top),
`Signal._value` / `Computed._value` per id, the `Schedule` singleton
(`queueIndex` = key set of the record, `queue` = the array of node ids),
and `Signal`'s static batch state.  `calls` counts invocations of a
node's derivation/body, `cleanups` invocations of its stored cleanup,
`running`/`destroy` are the `Effect` fields, and `trace` records the
ids run by the scheduler (the source's `log('Schedule run', ...)`). -/
structure GSt where
  nodes : Nat → GNode
  stack : List Nat
  values : Nat → Int
  calls : Nat → Nat
  running : Nat → Bool
  destroy : Nat → Option Nat
  cleanups : Nat → Nat
  queueIndex : List Nat
  queue : List Nat
  batchMode : Bool
  batchQueue : List Nat
  trace : List Nat

/-- Point update of the node table. -/
def upd (f : Nat → GNode) (i : Nat) (g : GNode → GNode) : Nat → GNode :=
  fun j => if j = i then g (f i) else f j

/-- Record-key insertion: adding an already present key is a no-op on the
key set (JS `obj[id] = node`). -/
def addId (i : Nat) (l : List Nat) : List Nat :=
  if i ∈ l then l else l ++ [i]

/-- Record-key deletion (JS `delete obj[id]`). -/
def removeId (i : Nat) (l : List Nat) : List Nat :=
  l.filter (fun j => j ≠ i)

@[simp]
theorem upd_same (f : Nat → GNode) (i : Nat) (g : GNode → GNode) : upd f i g i = g (f i) := by
  simp [upd]

theorem upd_other (f : Nat → GNode) (i j : Nat) (g : GNode → GNode) (h : j ≠ i) :
    upd f i g j = f j := by
  simp [upd, h]

theorem mem_addId (x i : Nat) (l : List Nat) : x ∈ addId i l ↔ x = i ∨ x ∈ l := by
  unfold addId
  by_cases h : i ∈ l
  · simp only [h, if_true]
    constructor
    · exact fun hx => Or.inr hx
    · rintro (rfl | hx)
      · exact h
      · exact hx
  · simp only [h, if_false, List.mem_append, List.mem_singleton]
    tauto

theorem mem_removeId (x i : Nat) (l : List Nat) : x ∈ removeId i l ↔ x ∈ l ∧ x ≠ i := by
  simp [removeId]

/-! ## The scheduler (`class Schedule`, src/index.ts lines 11-33) -/

/-- `Schedule.addEffectTask` (src/index.ts lines 27-32): no-op when the
node id is already a key of `queueIndex`, otherwise record it and push
onto the queue. -/
def addEffectTask (s : GSt) (nid : Nat) : GSt :=
  if nid ∈ s.queueIndex then s
  else { s with queueIndex := s.queueIndex ++ [nid], queue := s.queue ++ [nid] }

/-- The comparator of `Schedule.autoRun`'s in-place
`queue.sort((a, b) => -(a.priority - b.priority))`: priorities
descending, so the array's last element has the smallest priority. -/
def queueRel (s : GSt) : Nat → Nat → Prop :=
  fun a b => (s.nodes b).priority ≤ (s.nodes a).priority

instance queueRelDecidable (s : GSt) : DecidableRel (queueRel s) :=
  fun a b => inferInstanceAs (Decidable ((s.nodes b).priority ≤ (s.nodes a).priority))

/-- The queue after `autoRun`'s stable in-place sort, descending by the
nodes' current priorities. -/
def sortQueue (s : GSt) : List Nat :=
  s.queue.insertionSort (queueRel s)

/-- One iteration of `Schedule.autoRun` (src/index.ts lines 16-24), up to
but not including `node.run()`: return early when the queue is empty;
otherwise sort descending, `pop()` the last node, and `delete` its id
from `queueIndex`.  Returns the popped node together with the scheduler
state in force when `node.run()` starts. -/
def autoRunStep (s : GSt) : Option (Nat × GSt) :=
  if s.queue.isEmpty then none
  else
    match (sortQueue s).getLast? with
    | none => none
    | some nid =>
        some (nid, { s with queue := (sortQueue s).dropLast,
                            queueIndex := removeId nid s.queueIndex })

/-- `Schedule.autoRun` (src/index.ts lines 16-24).  The effect of
`node.run()` is the parameter `runFn` (a running node may call back into
the scheduler), `fuel` bounds the recursion depth, and the run node's id
is appended to `trace` (the source's `log('Schedule run', ...)`). -/
def autoRun (runFn : Nat → GSt → GSt) : Nat → GSt → GSt
  | 0, s => s
  | fuel + 1, s =>
    match autoRunStep s with
    | none => s
    | some (nid, s') => autoRun runFn fuel (runFn nid { s' with trace := s'.trace ++ [nid] })

/-! ## The edge protocol (`abstract class EffectNode`, src/index.ts lines 37-105) -/

/-- `EffectNode.addCurrentEffect` (src/index.ts lines 47-50): push onto
the evaluation stack (we keep the top at the head). -/
def addCurrentEffect (self : Nat) (s : GSt) : GSt :=
  { s with stack := self :: s.stack }

/-- `EffectNode.popCurrentEffect` (src/index.ts lines 53-58): pop, but
only when `self` is the top entry. -/
def popCurrentEffect (self : Nat) (s : GSt) : GSt :=
  match s.stack with
  | top :: rest => if top = self then { s with stack := rest } else s
  | [] => s

/-- `EffectNode.collect` (src/index.ts lines 61-73): when the evaluation
stack is non-empty, let `cur` be its top; if the edge already exists
(`this.next[cur.id]`) do nothing, otherwise add `cur` to `self.next`,
add `self` to `cur.prev`, and increase `cur.priority` by
`self.priority`. -/
def collect (self : Nat) (s : GSt) : GSt :=
  match s.stack.head? with
  | none => s
  | some cur =>
    if cur ∈ (s.nodes self).next then s
    else
      let f1 := upd s.nodes self (fun n => { n with next := n.next ++ [cur] })
      let f2 := upd f1 cur (fun n => { n with prev := addId self n.prev })
      let f3 := upd f2 cur (fun n => { n with priority := n.priority + (f2 self).priority })
      { s with nodes := f3 }

/-- `EffectNode.release` (src/index.ts lines 76-83): delete `self` from
the `next` record of every upstream node, then reset `priority` to 1 and
`prev` to empty. -/
def release (self : Nat) (s : GSt) : GSt :=
  let f1 := (s.nodes self).prev.foldl
    (fun f p => upd f p (fun n => { n with next := removeId self n.next })) s.nodes
  { s with nodes := upd f1 self (fun n => { n with priority := 1, prev := [] }) }

/-- `EffectNode.updatePriority` (src/index.ts lines 86-90): priority
becomes the sum of the current upstream nodes' priorities (0 when
`prev` is empty). -/
def updatePriority (self : Nat) (s : GSt) : GSt :=
  { s with nodes := upd s.nodes self (fun n =>
      { n with priority := ((s.nodes self).prev.map (fun p => (s.nodes p).priority)).sum }) }

/-- The loop body of `dirtyDownstream` (src/index.ts lines 95-98): set
one downstream node's dirty flag and submit it to the scheduler. -/
def markStep (t : GSt) (n : Nat) : GSt :=
  addEffectTask { t with nodes := upd t.nodes n (fun m => { m with dirty := true }) } n

/-- `EffectNode.dirtyDownstream` (src/index.ts lines 93-99): for every
downstream node, set its dirty flag and submit it to the scheduler. -/
def dirtyDownstream (self : Nat) (s : GSt) : GSt :=
  ((s.nodes self).next).foldl markStep s

/-- `EffectNode.run` (src/index.ts lines 102-104), the base behaviour
also invoked as `super.run()`: clear the dirty flag. -/
def baseRun (self : Nat) (s : GSt) : GSt :=
  { s with nodes := upd s.nodes self (fun n => { n with dirty := false }) }

/-! ## `class Signal` (src/index.ts lines 108-154) -/

/-- The value store of the `Signal.value` setter, line 135:
`this._value = v`, performed unconditionally before the batch test. -/
def storeValue (sid : Nat) (v : Int) (s : GSt) : GSt :=
  { s with values := fun i => if i = sid then v else s.values i }

/-- `Signal.value` getter (src/index.ts lines 117-121): `collect()` then
return `_value`. -/
def signalGet (sid : Nat) (s : GSt) : Int × GSt :=
  let s1 := collect sid s
  (s1.values sid, s1)

/-- `Signal.peek` (src/index.ts lines 128-131): return `_value` without
tracking. -/
def signalPeek (sid : Nat) (s : GSt) : Int :=
  s.values sid

/-- `Signal.value` setter (src/index.ts lines 133-142): store `v`
unconditionally; in batch mode record `self` into `Signal.batchQueue`
(a record keyed by id), otherwise `dirtyDownstream()` then
`schedule.autoRun()`. -/
def setValue (runFn : Nat → GSt → GSt) (fuel : Nat) (sid : Nat) (v : Int) (s : GSt) : GSt :=
  let s1 := storeValue sid v s
  if s1.batchMode then
    { s1 with batchQueue := addId sid s1.batchQueue }
  else
    autoRun runFn fuel (dirtyDownstream sid s1)

/-- A batch body is modelled as the list of signal writes it performs
(id, value), executed through the `Signal.value` setter. -/
def runWrites (runFn : Nat → GSt → GSt) (fuel : Nat) (writes : List (Nat × Int)) (s : GSt) : GSt :=
  writes.foldl (fun t w => setValue runFn fuel w.1 w.2 t) s

/-- Everything `Signal.batch` (src/index.ts lines 147-153) does before
its final `schedule.autoRun()`: raise `batchMode`, run the body's
writes, lower `batchMode`, then `dirtyDownstream()` every signal in
`Signal.batchQueue`.  Note the source never clears `batchQueue`. -/
def batchPhase (runFn : Nat → GSt → GSt) (fuel : Nat) (writes : List (Nat × Int)) (s : GSt) : GSt :=
  let s1 := { s with batchMode := true }
  let s2 := runWrites runFn fuel writes s1
  let s3 := { s2 with batchMode := false }
  s3.batchQueue.foldl (fun t n => dirtyDownstream n t) s3

/-- `Signal.batch` (src/index.ts lines 147-153): the pre-drain phase
followed by a single `schedule.autoRun()`. -/
def batch (runFn : Nat → GSt → GSt) (fuel : Nat) (writes : List (Nat × Int)) (s : GSt) : GSt :=
  autoRun runFn fuel (batchPhase runFn fuel writes s)

/-! ## `class Computed` (src/index.ts lines 157-196) -/

/-- `Computed._ensureComputed` (src/index.ts lines 167-176) for node
`cid` whose derivation is `fn`.  A derivation is arbitrary user code: it
transforms the state and either returns a value or throws, and `calls
cid` counts its invocations.  When it throws, mutations made before the
throw persist, the exception propagates, and — exactly as in the source,
which has no try/finally — neither `popCurrentEffect` nor
`updatePriority` runs.  Note the source does not clear `dirty` here. -/
def ensureComputed (fn : GSt → GSt × Except Err Int) (cid : Nat) (s : GSt) :
    GSt × Option Err :=
  if (s.nodes cid).dirty then
    let s1 := release cid s
    let s2 := addCurrentEffect cid s1
    let r := fn s2
    let s3 := { r.1 with calls := fun i => if i = cid then r.1.calls cid + 1 else r.1.calls i }
    match r.2 with
    | Except.error e => (s3, some e)
    | Except.ok v =>
        let s4 := { s3 with values := fun i => if i = cid then v else s3.values i }
        let s5 := popCurrentEffect cid s4
        (updatePriority cid s5, none)
  else (s, none)

/-- `Computed.value` getter (src/index.ts lines 178-183): `collect()`,
then `_ensureComputed()`, then return `_value`; a thrown exception
propagates to the reader. -/
def computedGet (fn : GSt → GSt × Except Err Int) (cid : Nat) (s : GSt) :
    GSt × Except Err Int :=
  let s1 := collect cid s
  match ensureComputed fn cid s1 with
  | (s2, some e) => (s2, Except.error e)
  | (s2, none) => (s2, Except.ok (s2.values cid))

/-! ## `class Effect` (src/index.ts lines 198-234) -/

/-- `Effect.run` (src/index.ts lines 214-223): set `running`, push onto
the evaluation stack, `release()`, invoke the body (arbitrary user code
returning an optional cleanup, or throwing), store the cleanup, pop,
`updatePriority()`, `super.run()`.  As in the source there is no
try/finally: a throwing body leaves the stack entry in place. -/
def effectRun (body : GSt → GSt × Except Err (Option Nat)) (eid : Nat) (s : GSt) :
    GSt × Option Err :=
  let s1 := { s with running := fun i => if i = eid then true else s.running i }
  let s2 := addCurrentEffect eid s1
  let s3 := release eid s2
  let r := body s3
  let s4 := { r.1 with calls := fun i => if i = eid then r.1.calls eid + 1 else r.1.calls i }
  match r.2 with
  | Except.error e => (s4, some e)
  | Except.ok c =>
      let s5 := { s4 with destroy := fun i => if i = eid then c else s4.destroy i }
      let s6 := popCurrentEffect eid s5
      let s7 := updatePriority eid s6
      (baseRun eid s7, none)

/-- `Effect.stop` (src/index.ts lines 225-233): only when `running` —
invoke the stored cleanup if present (modelled as bumping `cleanups`),
`release()`, null the cleanup, clear `running`. -/
def effectStop (eid : Nat) (s : GSt) : GSt :=
  if s.running eid then
    let s1 := match s.destroy eid with
      | some _ => { s with cleanups := fun i => if i = eid then s.cleanups eid + 1 else s.cleanups i }
      | none => s
    let s2 := release eid s1
    let s3 := { s2 with destroy := fun i => if i = eid then none else s2.destroy i }
    { s3 with running := fun i => if i = eid then false else s3.running i }
  else s

/-! ## The earlier revision (`src/unnamed/part_000`)

The old revision has no batch state; its `Schedule` methods are named
`add`/`run`, and `EffectNode.notifyAll` (part_000 lines 92-100) marks
the downstream dirty, submits it, and then drains internally, so the
`Signal.value` setter (part_000 lines 133-137) is just store-then-
`notifyAll()`.  All other methods are character-for-character identical
to `src/index.ts`. -/

namespace Old

/-- The mutable world of `src/unnamed/part_000`: as `GSt` but with no
`batchMode`/`batchQueue` (the old revision has no batch feature). -/
structure OSt where
  nodes : Nat → GNode
  stack : List Nat
  values : Nat → Int
  calls : Nat → Nat
  running : Nat → Bool
  destroy : Nat → Option Nat
  cleanups : Nat → Nat
  queueIndex : List Nat
  queue : List Nat
  trace : List Nat

/-- `Schedule.add` (part_000 lines 26-31), identical to
`Schedule.addEffectTask` of the new revision. -/
def add (s : OSt) (nid : Nat) : OSt :=
  if nid ∈ s.queueIndex then s
  else { s with queueIndex := s.queueIndex ++ [nid], queue := s.queue ++ [nid] }

/-- The comparator of `Schedule.run`'s sort (part_000 line 18). -/
def queueRelO (s : OSt) : Nat → Nat → Prop :=
  fun a b => (s.nodes b).priority ≤ (s.nodes a).priority

instance queueRelODecidable (s : OSt) : DecidableRel (queueRelO s) :=
  fun a b => inferInstanceAs (Decidable ((s.nodes b).priority ≤ (s.nodes a).priority))

/-- The old queue after the stable descending sort. -/
def sortQueueO (s : OSt) : List Nat :=
  s.queue.insertionSort (queueRelO s)

/-- One iteration of `Schedule.run` (part_000 lines 15-24) up to
`node.run()`, identical to the new `autoRunStep`. -/
def schedRunStep (s : OSt) : Option (Nat × OSt) :=
  if s.queue.isEmpty then none
  else
    match (sortQueueO s).getLast? with
    | none => none
    | some nid =>
        some (nid, { s with queue := (sortQueueO s).dropLast,
                            queueIndex := removeId nid s.queueIndex })

/-- `Schedule.run` (part_000 lines 15-24), the old drain loop. -/
def schedRun (runFn : Nat → OSt → OSt) : Nat → OSt → OSt
  | 0, s => s
  | fuel + 1, s =>
    match schedRunStep s with
    | none => s
    | some (nid, s') => schedRun runFn fuel (runFn nid { s' with trace := s'.trace ++ [nid] })

/-- `Schedule.add` applied while marking a node dirty, the loop body of
`notifyAll` (part_000 lines 95-98). -/
def markAndAdd (t : OSt) (n : Nat) : OSt :=
  add { t with nodes := upd t.nodes n (fun m => { m with dirty := true }) } n

/-- `EffectNode.notifyAll` (part_000 lines 92-100): mark every
downstream node dirty, submit it, then `schedule.run()` internally. -/
def notifyAll (runFn : Nat → OSt → OSt) (fuel : Nat) (self : Nat) (s : OSt) : OSt :=
  schedRun runFn fuel (((s.nodes self).next).foldl markAndAdd s)

/-- The old `Signal.value` setter (part_000 lines 133-137): store `v`,
then `notifyAll()`. -/
def setValueO (runFn : Nat → OSt → OSt) (fuel : Nat) (sid : Nat) (v : Int) (s : OSt) : OSt :=
  notifyAll runFn fuel sid { s with values := fun i => if i = sid then v else s.values i }

end Old

/-- Forget the batch state: the common part of a new-revision state and
an old-revision state. -/
def erase (s : GSt) : Old.OSt :=
  { nodes := s.nodes, stack := s.stack, values := s.values, calls := s.calls,
    running := s.running, destroy := s.destroy, cleanups := s.cleanups,
    queueIndex := s.queueIndex, queue := s.queue, trace := s.trace }

/-! ## Scheduler facts (claims C5, C6) -/

instance queueRelTotal (s : GSt) : IsTotal Nat (queueRel s) :=
  ⟨fun a b => le_total (s.nodes b).priority (s.nodes a).priority⟩

instance queueRelTrans (s : GSt) : IsTrans Nat (queueRel s) :=
  ⟨fun _ _ _ hab hbc => le_trans hbc hab⟩

theorem sortQueue_perm (s : GSt) : (sortQueue s).Perm s.queue :=
  List.perm_insertionSort (queueRel s) s.queue

theorem sortQueue_sorted (s : GSt) : (sortQueue s).Sorted (queueRel s) :=
  List.sorted_insertionSort (queueRel s) s.queue

/-- The last element of a list sorted descending by priority has minimal
priority among its members. -/
theorem sorted_getLast_min (s : GSt) :
    ∀ L : List Nat, L.Sorted (queueRel s) → ∀ m : Nat, L.getLast? = some m →
      ∀ x ∈ L, (s.nodes m).priority ≤ (s.nodes x).priority := by
  intro L
  induction L with
  | nil => intro _ m hm; simp at hm
  | cons a L ih =>
    intro hs m hm x hx
    cases L with
    | nil =>
      simp only [List.getLast?_singleton, Option.some.injEq] at hm
      simp only [List.mem_singleton] at hx
      subst hx
      cases hm
      exact le_refl _
    | cons b L' =>
      rw [List.getLast?_cons_cons] at hm
      rw [List.sorted_cons] at hs
      rcases hs with ⟨ha, hs'⟩
      rcases List.mem_cons.mp hx with rfl | hx'
      · exact ha m (List.mem_of_getLast?_eq_some hm)
      · exact ih hs' m hm x hx'

theorem autoRunStep_none_iff (s : GSt) : autoRunStep s = none ↔ s.queue = [] := by
  unfold autoRunStep
  by_cases he : s.queue.isEmpty
  · simp [he, List.isEmpty_iff.mp he]
  · have hne : s.queue ≠ [] := by simpa [List.isEmpty_iff] using he
    have hsne : sortQueue s ≠ [] := by
      intro h0
      have hp := sortQueue_perm s
      rw [h0] at hp
      exact hne hp.symm.eq_nil
    cases hL : (sortQueue s).getLast? with
    | none => exact absurd (List.getLast?_eq_none_iff.mp hL) hsne
    | some m => simp [he, hL, hne]

/-- Unfolding of a successful `autoRunStep`: the node is the last element
of the sorted queue, and the state handed to `node.run()` has that entry
popped from the queue and its id deleted from `queueIndex`, with every
other field untouched. -/
theorem autoRunStep_some (s : GSt) (nid : Nat) (s' : GSt)
    (h : autoRunStep s = some (nid, s')) :
    (sortQueue s).getLast? = some nid ∧
    s'.queue = (sortQueue s).dropLast ∧
    s'.queueIndex = removeId nid s.queueIndex ∧
    s'.nodes = s.nodes ∧ s'.stack = s.stack ∧ s'.values = s.values ∧
    s'.calls = s.calls ∧ s'.running = s.running ∧ s'.destroy = s.destroy ∧
    s'.cleanups = s.cleanups ∧ s'.batchMode = s.batchMode ∧
    s'.batchQueue = s.batchQueue ∧ s'.trace = s.trace := by
  unfold autoRunStep at h
  by_cases he : s.queue.isEmpty
  · simp [he] at h
  · simp only [he, if_false] at h
    cases hL : (sortQueue s).getLast? with
    | none => rw [hL] at h; simp at h
    | some m =>
      rw [hL] at h
      simp only [Option.some.injEq, Prod.mk.injEq] at h
      obtain ⟨rfl, rfl⟩ := h
      exact ⟨rfl, rfl, rfl, rfl, rfl, rfl, rfl, rfl, rfl, rfl, rfl, rfl, rfl⟩

/-- C5: on each iteration of the drain, while the queue is non-empty, the
node removed and run has minimal priority among all pending nodes; it is
deleted from the pending set before `run()` is invoked, so re-submitting
it during its own run appends it afresh; and the drain returns only on
an empty queue, otherwise recursing after the run. -/
theorem autoRun_removes_min_before_run :
    (∀ s : GSt, autoRunStep s = none ↔ s.queue = []) ∧
    (∀ (s : GSt) (nid : Nat) (s' : GSt), autoRunStep s = some (nid, s') →
      nid ∈ s.queue ∧
      (∀ m ∈ s.queue, (s.nodes nid).priority ≤ (s.nodes m).priority) ∧
      nid ∉ s'.queueIndex ∧
      (addEffectTask s' nid).queueIndex = s'.queueIndex ++ [nid] ∧
      (addEffectTask s' nid).queue = s'.queue ++ [nid] ∧
      ∀ (runFn : Nat → GSt → GSt) (fuel : Nat),
        autoRun runFn (fuel + 1) s =
          autoRun runFn fuel (runFn nid { s' with trace := s'.trace ++ [nid] })) := by
  constructor
  · exact autoRunStep_none_iff
  · intro s nid s' h
    obtain ⟨hL, hq, hqi, -⟩ := autoRunStep_some s nid s' h
    have hmem : nid ∈ s.queue :=
      (sortQueue_perm s).mem_iff.mp (List.mem_of_getLast?_eq_some hL)
    have hnin : nid ∉ s'.queueIndex := by
      rw [hqi]
      intro hc
      exact ((mem_removeId nid nid s.queueIndex).mp hc).2 rfl
    refine ⟨hmem, ?_, hnin, ?_, ?_, ?_⟩
    · intro m hm
      exact sorted_getLast_min s (sortQueue s) (sortQueue_sorted s) nid hL m
        ((sortQueue_perm s).mem_iff.mpr hm)
    · simp [addEffectTask, hnin]
    · simp [addEffectTask, hnin]
    · intro runFn fuel
      simp [autoRun, h]

/-- C5 witness: a concrete two-element queue where the lower-priority
node (id 2, priority 1) is popped first. -/
theorem autoRun_removes_min_before_run_witness :
    let s : GSt :=
      { nodes := fun i => if i = 1 then { GNode.init with priority := 5 } else GNode.init,
        stack := [], values := fun _ => 0, calls := fun _ => 0,
        running := fun _ => false, destroy := fun _ => none, cleanups := fun _ => 0,
        queueIndex := [1, 2], queue := [1, 2], batchMode := false, batchQueue := [],
        trace := [] }
    ∃ s' : GSt, autoRunStep s = some (2, s') ∧
      2 ∈ s.queue ∧
      (∀ m ∈ s.queue, (s.nodes 2).priority ≤ (s.nodes m).priority) ∧
      2 ∉ s'.queueIndex := by
  intro s
  have h : autoRunStep s =
      some (2, { s with queue := (sortQueue s).dropLast, queueIndex := removeId 2 s.queueIndex }) := by
    rfl
  refine ⟨_, h, ?_⟩
  have := (autoRun_removes_min_before_run.2 s 2 _ h)
  exact ⟨this.1, this.2.1, this.2.2.1⟩

/-- States of the `Schedule` singleton generated by the operations that
touch its two fields: the empty initial scheduler, `addEffectTask`
(submission, possible from anywhere), the removal performed by an
`autoRun` iteration, and arbitrary mutation of everything outside
`queue`/`queueIndex` (a running node may change priorities, values,
edges, the stack, or the batch state, but only `addEffectTask` and
`autoRun` write the two scheduler fields). -/
inductive SReachable : GSt → Prop
  | init (s : GSt) : s.queue = [] → s.queueIndex = [] → SReachable s
  | add (s : GSt) (n : Nat) : SReachable s → SReachable (addEffectTask s n)
  | step (s : GSt) (n : Nat) (s' : GSt) : SReachable s → autoRunStep s = some (n, s') →
      SReachable s'
  | frame (s s' : GSt) : SReachable s → s'.queue = s.queue → s'.queueIndex = s.queueIndex →
      SReachable s'

/-- C6: submitting a node whose id is already pending is a strict no-op,
and in every reachable scheduler state the queue holds each id at most
once while `queueIndex` holds exactly the ids of the queued nodes. -/
theorem submit_dedup_and_pending_unique :
    (∀ (s : GSt) (nid : Nat), nid ∈ s.queueIndex → addEffectTask s nid = s) ∧
    (∀ s : GSt, SReachable s →
      s.queue.Nodup ∧ ∀ i : Nat, i ∈ s.queueIndex ↔ i ∈ s.queue) := by
  constructor
  · intro s nid h
    simp [addEffectTask, h]
  · intro s hr
    induction hr with
    | init s hq hqi =>
      rw [hq, hqi]
      exact ⟨List.nodup_nil, fun i => Iff.rfl⟩
    | add s n _ ih =>
      by_cases h : n ∈ s.queueIndex
      · simpa [addEffectTask, h] using ih
      · have hnq : n ∉ s.queue := fun hc => h ((ih.2 n).mpr hc)
        constructor
        · simp [addEffectTask, h, List.nodup_append, ih.1, hnq]
        · intro i
          simp only [addEffectTask, h, if_false, List.mem_append, List.mem_singleton]
          rw [ih.2 i]
    | step s n s' _ hstep ih =>
      obtain ⟨hL, hq, hqi, -⟩ := autoRunStep_some s n s' hstep
      obtain ⟨ys, hys⟩ := List.getLast?_eq_some_iff.mp hL
      have hperm : (sortQueue s).Perm s.queue := sortQueue_perm s
      have hnd : (ys ++ [n]).Nodup := by
        rw [← hys]
        exact (hperm.nodup_iff).mpr ih.1
      have hysnd : ys.Nodup ∧ n ∉ ys := by
        constructor
        · exact hnd.of_append_left
        · intro hc
          rcases List.nodup_append.mp hnd with ⟨-, -, hdisj⟩
          exact hdisj hc (List.mem_singleton_self n)
      have hqueue : s'.queue = ys := by
        rw [hq, hys, List.dropLast_concat]
      constructor
      · rw [hqueue]; exact hysnd.1
      · intro i
        rw [hqueue, hqi, mem_removeId]
        have hmem : i ∈ s.queue ↔ i ∈ ys ∨ i = n := by
          rw [← hperm.mem_iff, hys]
          simp
        rw [ih.2 i, hmem]
        constructor
        · rintro ⟨hi | hi, hne⟩
          · exact hi
          · exact absurd hi hne
        · intro hi
          exact ⟨Or.inl hi, fun hc => hysnd.2 (hc ▸ hi)⟩
    | frame s s' _ hq hqi ih =>
      rw [hq, hqi]
      exact ih

/-- C6 witness: submitting id 1 to a scheduler that already holds it
changes nothing, and a concrete reachable state (empty, then two
submissions) satisfies the pending-set invariant. -/
theorem submit_dedup_and_pending_unique_witness :
    let s0 : GSt :=
      { nodes := fun _ => GNode.init, stack := [], values := fun _ => 0,
        calls := fun _ => 0, running := fun _ => false, destroy := fun _ => none,
        cleanups := fun _ => 0, queueIndex := [], queue := [], batchMode := false,
        batchQueue := [], trace := [] }
    let s1 := addEffectTask (addEffectTask s0 1) 2
    addEffectTask s1 1 = s1 ∧ s1.queue.Nodup ∧ ∀ i : Nat, i ∈ s1.queueIndex ↔ i ∈ s1.queue := by
  intro s0 s1
  have hr : SReachable s1 :=
    SReachable.add _ 2 (SReachable.add _ 1 (SReachable.init s0 rfl rfl))
  have h1 : (1 : Nat) ∈ s1.queueIndex := by decide
  exact ⟨submit_dedup_and_pending_unique.1 s1 1 h1,
    (submit_dedup_and_pending_unique.2 s1 hr).1,
    (submit_dedup_and_pending_unique.2 s1 hr).2⟩

/-! ## Edge bookkeeping facts (claims C4, C8) -/

/-- Edge symmetry: A is in B's upstream record iff B is in A's
downstream record. -/
def Mirror (s : GSt) : Prop :=
  ∀ a b : Nat, a ∈ (s.nodes b).prev ↔ b ∈ (s.nodes a).next

theorem removeId_idem (i : Nat) (l : List Nat) : removeId i (removeId i l) = removeId i l := by
  simp [removeId, List.filter_filter]

/-- Effect of `collect`'s upstream half on every node, in the branch
that adds an edge. -/
theorem collect_prev (self : Nat) (s : GSt) (cur : Nat) (hst : s.stack.head? = some cur)
    (hmem : cur ∉ (s.nodes self).next) (x : Nat) :
    ((collect self s).nodes x).prev =
      if x = cur then addId self ((s.nodes cur).prev) else (s.nodes x).prev := by
  unfold collect
  rw [hst]
  simp only [hmem, if_false]
  by_cases hxc : x = cur
  · subst hxc
    by_cases hxs : x = self
    · subst hxs; simp [upd]
    · simp [upd, hxs, Ne.symm hxs]
  · by_cases hxs : x = self
    · subst hxs
      simp [upd, hxc, Ne.symm hxc]
    · simp [upd, hxc, hxs]

/-- Effect of `collect`'s downstream half on every node, in the branch
that adds an edge. -/
theorem collect_next (self : Nat) (s : GSt) (cur : Nat) (hst : s.stack.head? = some cur)
    (hmem : cur ∉ (s.nodes self).next) (x : Nat) :
    ((collect self s).nodes x).next =
      if x = self then (s.nodes self).next ++ [cur] else (s.nodes x).next := by
  unfold collect
  rw [hst]
  simp only [hmem, if_false]
  by_cases hxc : x = cur
  · subst hxc
    by_cases hxs : x = self
    · subst hxs; simp [upd]
    · simp [upd, hxs, Ne.symm hxs]
  · by_cases hxs : x = self
    · subst hxs
      simp [upd, hxc, Ne.symm hxc]
    · simp [upd, hxc, hxs]

theorem collect_preserves_mirror (self : Nat) (s : GSt) (h : Mirror s) :
    Mirror (collect self s) := by
  cases hst : s.stack.head? with
  | none =>
    have hcc : collect self s = s := by unfold collect; rw [hst]
    rw [hcc]; exact h
  | some cur =>
    by_cases hmem : cur ∈ (s.nodes self).next
    · have hcc : collect self s = s := by
        unfold collect; rw [hst]; simp [hmem]
      rw [hcc]; exact h
    · intro a b
      rw [collect_prev self s cur hst hmem b, collect_next self s cur hst hmem a]
      by_cases hbc : b = cur
      · subst hbc
        by_cases has : a = self
        · subst has; simp [mem_addId]
        · simp only [if_true, has, if_false, mem_addId]
          rw [h a b]
          simp [has]
      · by_cases has : a = self
        · subst has
          simp only [hbc, if_false, if_true, List.mem_append, List.mem_singleton]
          rw [h a b]
          simp [hbc]
        · simp only [hbc, has, if_false]
          exact h a b

/-- The loop of `release` (delete `self` from each upstream node's
`next` record), described pointwise. -/
theorem foldl_removeNext (self : Nat) :
    ∀ (L : List Nat) (f : Nat → GNode) (x : Nat),
      (L.foldl (fun g p => upd g p (fun n => { n with next := removeId self n.next })) f) x =
        if x ∈ L then { f x with next := removeId self (f x).next } else f x := by
  intro L
  induction L with
  | nil => intro f x; simp
  | cons p L ih =>
    intro f x
    rw [List.foldl_cons, ih]
    by_cases hxp : x = p
    · subst hxp
      simp [upd, removeId_idem, List.mem_cons]
    · by_cases hxL : x ∈ L <;> simp [upd, hxp, hxL, List.mem_cons]

theorem release_prev (self : Nat) (s : GSt) (x : Nat) :
    ((release self s).nodes x).prev = if x = self then [] else (s.nodes x).prev := by
  unfold release
  by_cases hx : x = self
  · subst hx; simp [upd]
  · simp only [upd, hx, if_false]
    rw [foldl_removeNext]
    by_cases hxp : x ∈ (s.nodes self).prev <;> simp [hxp]

theorem release_next (self : Nat) (s : GSt) (x : Nat) :
    ((release self s).nodes x).next =
      if x ∈ (s.nodes self).prev then removeId self ((s.nodes x).next)
      else (s.nodes x).next := by
  unfold release
  by_cases hx : x = self
  · subst hx
    simp only [upd, if_true]
    rw [foldl_removeNext]
    by_cases hxp : x ∈ (s.nodes x).prev <;> simp [hxp]
  · simp only [upd, hx, if_false]
    rw [foldl_removeNext]
    by_cases hxp : x ∈ (s.nodes self).prev <;> simp [hxp]

theorem release_preserves_mirror (self : Nat) (s : GSt) (h : Mirror s) :
    Mirror (release self s) := by
  intro a b
  rw [release_prev self s b, release_next self s a]
  by_cases hbs : b = self
  · subst hbs
    simp only [if_true, List.not_mem_nil, false_iff]
    by_cases hap : a ∈ (s.nodes b).prev
    · simp [hap, mem_removeId]
    · simp only [hap, if_false]
      rw [← h a b]
      exact hap
  · simp only [hbs, if_false]
    by_cases hap : a ∈ (s.nodes self).prev
    · simp only [hap, if_true, mem_removeId]
      rw [h a b]
      simp [hbs]
    · simp only [hap, if_false]
      exact h a b

/-- States reachable through the only code paths that write `prev`/`next`
records: node construction (all nodes start with empty edge records),
`EffectNode.collect`, `EffectNode.release`, and any mutation leaving
every node's two edge records untouched (stack pushes and pops, dirty
and priority updates, value writes, scheduler and batch operations). -/
inductive GReachable : GSt → Prop
  | init (s : GSt) : (∀ i, (s.nodes i).prev = [] ∧ (s.nodes i).next = []) → GReachable s
  | collectStep (s : GSt) (self : Nat) : GReachable s → GReachable (collect self s)
  | releaseStep (s : GSt) (self : Nat) : GReachable s → GReachable (release self s)
  | frame (s s' : GSt) : GReachable s →
      (∀ i, (s'.nodes i).prev = (s.nodes i).prev ∧ (s'.nodes i).next = (s.nodes i).next) →
      GReachable s'

/-- C4: edge mirroring is an invariant of every reachable state — for
all nodes A and B, A is in B's upstream record iff B is in A's
downstream record, `collect` adding and `release` removing both halves
together. -/
theorem edge_mirroring (s : GSt) (h : GReachable s) : Mirror s := by
  induction h with
  | init s h0 =>
    intro a b
    rw [(h0 b).1, (h0 a).2]
    simp
  | collectStep s self _ ih => exact collect_preserves_mirror self s ih
  | releaseStep s self _ ih => exact release_preserves_mirror self s ih
  | frame s s' _ he ih =>
    intro a b
    rw [(he b).1, (he a).2]
    exact ih a b

/-- C4 witness: after an effect (id 1) on the stack reads a signal
(id 0) and the signal then releases nothing, mirroring holds in the
concrete state reached by `collect` and `release`. -/
theorem edge_mirroring_witness :
    let s0 : GSt :=
      { nodes := fun _ => GNode.init, stack := [1], values := fun _ => 0,
        calls := fun _ => 0, running := fun _ => false, destroy := fun _ => none,
        cleanups := fun _ => 0, queueIndex := [], queue := [], batchMode := false,
        batchQueue := [], trace := [] }
    GReachable (release 1 (collect 0 s0)) ∧ Mirror (release 1 (collect 0 s0)) := by
  intro s0
  have hr : GReachable (release 1 (collect 0 s0)) :=
    GReachable.releaseStep _ 1 (GReachable.collectStep _ 0
      (GReachable.init s0 (fun i => ⟨rfl, rfl⟩)))
  exact ⟨hr, edge_mirroring _ hr⟩

/-- C8: with an empty evaluation stack, reading a `Signal` returns
exactly its `peek` value and leaves the entire state — every node's
edge records, priority and dirty flag, and the scheduler's pending set —
unchanged. -/
theorem untracked_read_is_peek (sid : Nat) (s : GSt) (h : s.stack = []) :
    signalGet sid s = (signalPeek sid s, s) := by
  unfold signalGet signalPeek collect
  rw [h]
  rfl

/-- C8 witness: a concrete untracked read of signal 0. -/
theorem untracked_read_is_peek_witness :
    let s0 : GSt :=
      { nodes := fun _ => GNode.init, stack := [], values := fun i => if i = 0 then 7 else 0,
        calls := fun _ => 0, running := fun _ => false, destroy := fun _ => none,
        cleanups := fun _ => 0, queueIndex := [], queue := [], batchMode := false,
        batchQueue := [], trace := [] }
    signalGet 0 s0 = (signalPeek 0 s0, s0) ∧ signalPeek 0 s0 = 7 := by
  intro s0
  exact ⟨untracked_read_is_peek 0 s0 rfl, rfl⟩

/-! ## Lazy evaluation and exception behaviour (claims C1, C3) -/

theorem collect_stack (self : Nat) (s : GSt) : (collect self s).stack = s.stack := by
  unfold collect
  cases hst : s.stack.head? with
  | none => rfl
  | some cur => by_cases hmem : cur ∈ (s.nodes self).next <;> simp [hmem]

theorem collect_dirty (self x : Nat) (s : GSt) :
    ((collect self s).nodes x).dirty = (s.nodes x).dirty := by
  unfold collect
  cases hst : s.stack.head? with
  | none => rfl
  | some cur =>
    by_cases hmem : cur ∈ (s.nodes self).next
    · simp [hmem]
    · simp only [hmem, if_false]
      by_cases hxc : x = cur
      · subst hxc
        by_cases hxs : x = self
        · subst hxs; simp [upd]
        · simp [upd, hxs, Ne.symm hxs]
      · by_cases hxs : x = self
        · subst hxs; simp [upd, hxc, Ne.symm hxc]
        · simp [upd, hxc, hxs]

theorem release_stack (self : Nat) (s : GSt) : (release self s).stack = s.stack := rfl

/-- Shape of `_ensureComputed` when the derivation throws: the invocation
is counted, the error is returned, and neither `popCurrentEffect` nor
`updatePriority` runs. -/
theorem ensureComputed_throw (fn : GSt → GSt × Except Err Int) (cid : Nat) (s : GSt) (e : Err)
    (hd : (s.nodes cid).dirty = true)
    (hfn : (fn (addCurrentEffect cid (release cid s))).2 = Except.error e) :
    ensureComputed fn cid s =
      ({ (fn (addCurrentEffect cid (release cid s))).1 with
         calls := fun i =>
           if i = cid then (fn (addCurrentEffect cid (release cid s))).1.calls cid + 1
           else (fn (addCurrentEffect cid (release cid s))).1.calls i }, some e) := by
  unfold ensureComputed
  rw [hd]
  simp only [if_true]
  rw [hfn]

/-- Shape of `Effect.run` when the body throws: the invocation is
counted, the error is returned, and the popped/priority/dirty epilogue
never runs. -/
theorem effectRun_throw (body : GSt → GSt × Except Err (Option Nat)) (eid : Nat) (t : GSt)
    (f : Err)
    (hb : (body (release eid (addCurrentEffect eid
        { t with running := fun i => if i = eid then true else t.running i }))).2 =
      Except.error f) :
    effectRun body eid t =
      ({ (body (release eid (addCurrentEffect eid
            { t with running := fun i => if i = eid then true else t.running i }))).1 with
         calls := fun i =>
           if i = eid then
             (body (release eid (addCurrentEffect eid
               { t with running := fun i => if i = eid then true else t.running i }))).1.calls eid + 1
           else
             (body (release eid (addCurrentEffect eid
               { t with running := fun i => if i = eid then true else t.running i }))).1.calls i },
       some f) := by
  simp only [effectRun]
  rw [hb]

/-- A derivation that reads nothing and returns 7. -/
def constFn : GSt → GSt × Except Err Int := fun s => (s, Except.ok 7)

/-- A derivation that throws exception 0 without mutating anything. -/
def throwFn : GSt → GSt × Except Err Int := fun s => (s, Except.error 0)

/-- An effect body that throws exception 1 without mutating anything. -/
def throwBody : GSt → GSt × Except Err (Option Nat) := fun s => (s, Except.error 1)

/-- The state right after constructing a single `Computed` with id 0:
`dirty` starts true (src/index.ts line 164), nothing on the stack. -/
def compSt0 : GSt :=
  { nodes := fun i => if i = 0 then { GNode.init with dirty := true } else GNode.init,
    stack := [], values := fun _ => 0, calls := fun _ => 0, running := fun _ => false,
    destroy := fun _ => none, cleanups := fun _ => 0, queueIndex := [], queue := [],
    batchMode := false, batchQueue := [], trace := [] }

/-- C1 (code bug): `_ensureComputed` never clears `dirty` (only the
scheduler path `Computed.run` does, via `super.run()`), so reading a
fresh `Computed` twice through the getter invokes the derivation twice —
after the first read `dirty` is still true and the second read
recomputes, contradicting the claimed at-most-one invocation. -/
theorem computed_read_reruns_derivation :
    (computedGet constFn 0 compSt0).2 = Except.ok 7 ∧
    ((computedGet constFn 0 compSt0).1.nodes 0).dirty = true ∧
    (computedGet constFn 0 compSt0).1.calls 0 = 1 ∧
    (computedGet constFn 0 (computedGet constFn 0 compSt0).1).1.calls 0 = 2 := by
  exact ⟨rfl, rfl, rfl, rfl⟩

/-- C3 counterexample: a throwing derivation propagates its exception to
the reader, but the evaluation stack — empty before the read — is left
holding the failing node's entry instead of being restored. -/
theorem throwing_derivation_corrupts_stack :
    compSt0.stack = [] ∧
    (computedGet throwFn 0 compSt0).2 = Except.error 0 ∧
    (computedGet throwFn 0 compSt0).1.stack = [0] := by
  exact ⟨rfl, rfl, rfl⟩

/-- C3 amended: when a `Computed` derivation or an `Effect` body throws,
the exception does propagate to the original caller, but the evaluation
stack is NOT restored — the entry pushed for the failing node remains on
top of the stack when control returns (the source has no try/finally).
Stated for bodies that keep the stack balanced up to their own throw. -/
theorem throw_propagates_and_stack_retains_entry
    (cid eid : Nat) (s t : GSt) (e f : Err)
    (fn : GSt → GSt × Except Err Int) (body : GSt → GSt × Except Err (Option Nat))
    (hd : (s.nodes cid).dirty = true)
    (hfn : (fn (addCurrentEffect cid (release cid (collect cid s)))).2 = Except.error e)
    (hfs : ∀ u : GSt, ((fn u).1).stack = u.stack)
    (hb : (body (release eid (addCurrentEffect eid
        { t with running := fun i => if i = eid then true else t.running i }))).2 =
      Except.error f)
    (hbs : ∀ u : GSt, ((body u).1).stack = u.stack) :
    (computedGet fn cid s).2 = Except.error e ∧
    (computedGet fn cid s).1.stack = cid :: s.stack ∧
    (effectRun body eid t).2 = some f ∧
    (effectRun body eid t).1.stack = eid :: t.stack := by
  have hd1 : ((collect cid s).nodes cid).dirty = true := by
    rw [collect_dirty]; exact hd
  have hec := ensureComputed_throw fn cid (collect cid s) e hd1 hfn
  have her := effectRun_throw body eid t f hb
  constructor
  · simp only [computedGet]
    rw [hec]
  constructor
  · simp only [computedGet]
    rw [hec]
    simp only [hfs, addCurrentEffect, release_stack, collect_stack]
  constructor
  · rw [her]
  · rw [her]
    simp only [hbs, addCurrentEffect, release_stack]

/-- C3 amended witness: concrete throwing derivation (exception 0) and
throwing effect body (exception 1) on concrete states. -/
theorem throw_propagates_and_stack_retains_entry_witness :
    (computedGet throwFn 0 compSt0).2 = Except.error 0 ∧
    (computedGet throwFn 0 compSt0).1.stack = 0 :: compSt0.stack ∧
    (effectRun throwBody 5 compSt0).2 = some 1 ∧
    (effectRun throwBody 5 compSt0).1.stack = 5 :: compSt0.stack :=
  throw_propagates_and_stack_retains_entry 0 5 compSt0 compSt0 0 1 throwFn throwBody
    rfl rfl (fun _ => rfl) rfl (fun _ => rfl)

/-! ## Effect stop idempotence (claim C9) -/

theorem release_cleanups (self : Nat) (s : GSt) : (release self s).cleanups = s.cleanups := rfl

theorem effectStop_not_running (eid : Nat) (s : GSt) (h : s.running eid = false) :
    effectStop eid s = s := by
  simp [effectStop, h]

theorem effectStop_running_after (eid : Nat) (s : GSt) :
    (effectStop eid s).running eid = false := by
  by_cases h : s.running eid
  · simp [effectStop, h]
  · simp only [Bool.not_eq_true] at h
    rw [effectStop_not_running eid s h]
    exact h

theorem effectStop_cleanups_le (eid : Nat) (s : GSt) :
    (effectStop eid s).cleanups eid ≤ s.cleanups eid + 1 := by
  by_cases h : s.running eid
  · cases hd : s.destroy eid <;> simp [effectStop, h, hd, release]
  · simp only [Bool.not_eq_true] at h
    rw [effectStop_not_running eid s h]
    exact Nat.le_succ _

/-- C9: stopping an `Effect` whose `running` flag is false is a strict
no-op on the whole state (in particular the cleanup is not invoked);
after any `stop` the flag is false, so `stop` composed with itself
equals a single `stop`, and the two stops together invoke the stored
cleanup at most once. -/
theorem effect_stop_idempotent :
    (∀ (s : GSt) (eid : Nat), s.running eid = false → effectStop eid s = s) ∧
    (∀ (s : GSt) (eid : Nat), (effectStop eid s).running eid = false) ∧
    (∀ (s : GSt) (eid : Nat), effectStop eid (effectStop eid s) = effectStop eid s) ∧
    (∀ (s : GSt) (eid : Nat),
      (effectStop eid (effectStop eid s)).cleanups eid ≤ s.cleanups eid + 1) := by
  have hidem : ∀ (s : GSt) (eid : Nat), effectStop eid (effectStop eid s) = effectStop eid s :=
    fun s eid => effectStop_not_running eid _ (effectStop_running_after eid s)
  refine ⟨fun s eid h => effectStop_not_running eid s h,
    fun s eid => effectStop_running_after eid s, hidem, ?_⟩
  intro s eid
  rw [hidem s eid]
  exact effectStop_cleanups_le eid s

/-- C9 witness: a concrete running effect (id 3, with a stored cleanup):
stop is idempotent and a stopped state is left untouched. -/
theorem effect_stop_idempotent_witness :
    let sE : GSt :=
      { nodes := fun _ => GNode.init, stack := [], values := fun _ => 0,
        calls := fun _ => 0, running := fun i => i = 3, destroy := fun i => if i = 3 then some 0 else none,
        cleanups := fun _ => 0, queueIndex := [], queue := [], batchMode := false,
        batchQueue := [], trace := [] }
    effectStop 7 sE = sE ∧
    effectStop 3 (effectStop 3 sE) = effectStop 3 sE ∧
    (effectStop 3 (effectStop 3 sE)).cleanups 3 ≤ sE.cleanups 3 + 1 := by
  intro sE
  exact ⟨effect_stop_idempotent.1 sE 7 (by decide),
    effect_stop_idempotent.2.2.1 sE 3,
    effect_stop_idempotent.2.2.2 sE 3⟩

/-! ## Signal writes and batching (claims C7, C2) -/

theorem markStep_same (t : GSt) (n : Nat) :
    (markStep t n).values = t.values ∧ (markStep t n).stack = t.stack ∧
    (markStep t n).batchMode = t.batchMode ∧ (markStep t n).batchQueue = t.batchQueue ∧
    (markStep t n).trace = t.trace := by
  by_cases h : n ∈ t.queueIndex <;> simp [markStep, addEffectTask, h]

theorem markStep_nodes (t : GSt) (n x : Nat) :
    (markStep t n).nodes x =
      if x = n then { t.nodes x with dirty := true } else t.nodes x := by
  by_cases h : n ∈ t.queueIndex <;> by_cases hx : x = n <;>
    simp [markStep, addEffectTask, h, upd, hx]

theorem markStep_queueIndex (t : GSt) (n i : Nat) :
    i ∈ (markStep t n).queueIndex ↔ i ∈ t.queueIndex ∨ i = n := by
  by_cases h : n ∈ t.queueIndex
  · simp only [markStep, addEffectTask, h, if_true]
    constructor
    · exact fun hi => Or.inl hi
    · rintro (hi | rfl)
      · exact hi
      · exact h
  · simp [markStep, addEffectTask, h]

theorem markStep_wf (t : GSt) (n : Nat)
    (h : ∀ j, j ∈ t.queueIndex ↔ j ∈ t.queue) :
    ∀ j, j ∈ (markStep t n).queueIndex ↔ j ∈ (markStep t n).queue := by
  intro j
  by_cases hn : n ∈ t.queueIndex
  · simp only [markStep, addEffectTask, hn, if_true]
    exact h j
  · simp only [markStep, addEffectTask, hn, if_false, List.mem_append, List.mem_singleton]
    rw [h j]

theorem foldl_markStep_same (L : List Nat) :
    ∀ t : GSt, (L.foldl markStep t).values = t.values ∧
      (L.foldl markStep t).stack = t.stack ∧
      (L.foldl markStep t).batchMode = t.batchMode ∧
      (L.foldl markStep t).batchQueue = t.batchQueue := by
  induction L with
  | nil => intro t; exact ⟨rfl, rfl, rfl, rfl⟩
  | cons a L ih =>
    intro t
    rw [List.foldl_cons]
    obtain ⟨h1, h2, h3, h4⟩ := ih (markStep t a)
    obtain ⟨g1, g2, g3, g4, -⟩ := markStep_same t a
    exact ⟨h1.trans g1, h2.trans g2, h3.trans g3, h4.trans g4⟩

theorem foldl_markStep_nodes (L : List Nat) :
    ∀ (t : GSt) (x : Nat), (L.foldl markStep t).nodes x =
      if x ∈ L then { t.nodes x with dirty := true } else t.nodes x := by
  induction L with
  | nil => intro t x; simp
  | cons a L ih =>
    intro t x
    rw [List.foldl_cons, ih, markStep_nodes]
    by_cases hxL : x ∈ L
    · by_cases hxa : x = a <;> simp [hxL, hxa, List.mem_cons]
    · by_cases hxa : x = a <;> simp [hxL, hxa, List.mem_cons]

theorem foldl_markStep_queueIndex (L : List Nat) :
    ∀ (t : GSt) (i : Nat), i ∈ (L.foldl markStep t).queueIndex ↔ i ∈ t.queueIndex ∨ i ∈ L := by
  induction L with
  | nil => intro t i; simp
  | cons a L ih =>
    intro t i
    rw [List.foldl_cons, ih, markStep_queueIndex, List.mem_cons]
    tauto

theorem foldl_markStep_wf (L : List Nat) :
    ∀ t : GSt, (∀ j, j ∈ t.queueIndex ↔ j ∈ t.queue) →
      ∀ j, j ∈ (L.foldl markStep t).queueIndex ↔ j ∈ (L.foldl markStep t).queue := by
  induction L with
  | nil => intro t h; exact h
  | cons a L ih =>
    intro t h
    rw [List.foldl_cons]
    exact ih (markStep t a) (markStep_wf t a h)

theorem storeValue_fields (sid : Nat) (v : Int) (s : GSt) :
    (storeValue sid v s).nodes = s.nodes ∧ (storeValue sid v s).batchMode = s.batchMode ∧
    (storeValue sid v s).queueIndex = s.queueIndex ∧ (storeValue sid v s).queue = s.queue ∧
    (storeValue sid v s).values sid = v :=
  ⟨rfl, rfl, rfl, rfl, by simp [storeValue]⟩

/-- C7: with batch mode inactive, the `Signal.value` setter is exactly
store, then mark-and-schedule, then one drain; the store is
unconditional (any `v`, including one equal to the stored value), and
after the marking phase every downstream node is dirty and pending. -/
theorem signal_write_no_shortcircuit (runFn : Nat → GSt → GSt) (fuel sid : Nat) (v : Int)
    (s : GSt) (hb : s.batchMode = false) :
    setValue runFn fuel sid v s = autoRun runFn fuel (dirtyDownstream sid (storeValue sid v s)) ∧
    (dirtyDownstream sid (storeValue sid v s)).values sid = v ∧
    (∀ n, n ∈ (s.nodes sid).next →
      ((dirtyDownstream sid (storeValue sid v s)).nodes n).dirty = true ∧
      n ∈ (dirtyDownstream sid (storeValue sid v s)).queueIndex) ∧
    ((∀ j, j ∈ s.queueIndex ↔ j ∈ s.queue) → ∀ n, n ∈ (s.nodes sid).next →
      n ∈ (dirtyDownstream sid (storeValue sid v s)).queue) := by
  have hsv : (storeValue sid v s).batchMode = false := hb
  refine ⟨?_, ?_, ?_, ?_⟩
  · simp [setValue, hsv]
  · unfold dirtyDownstream
    rw [(foldl_markStep_same _ _).1]
    simp [storeValue]
  · intro n hn
    unfold dirtyDownstream
    constructor
    · rw [foldl_markStep_nodes]
      simp only [storeValue] at hn ⊢
      simp [hn]
    · rw [foldl_markStep_queueIndex]
      exact Or.inr hn
  · intro hwf n hn
    unfold dirtyDownstream
    refine (foldl_markStep_wf _ (storeValue sid v s) hwf n).mp ?_
    rw [foldl_markStep_queueIndex]
    exact Or.inr hn

/-- C7 witness: writing the value 5 to signal 0, which already stores 5,
still marks and schedules its downstream node 4. -/
theorem signal_write_no_shortcircuit_witness :
    let sW : GSt :=
      { nodes := fun i => if i = 0 then { GNode.init with next := [4] } else GNode.init,
        stack := [], values := fun i => if i = 0 then 5 else 0, calls := fun _ => 0,
        running := fun _ => false, destroy := fun _ => none, cleanups := fun _ => 0,
        queueIndex := [], queue := [], batchMode := false, batchQueue := [], trace := [] }
    sW.values 0 = 5 ∧
    (dirtyDownstream 0 (storeValue 0 5 sW)).values 0 = 5 ∧
    ((dirtyDownstream 0 (storeValue 0 5 sW)).nodes 4).dirty = true ∧
    4 ∈ (dirtyDownstream 0 (storeValue 0 5 sW)).queue := by
  intro sW
  have h := signal_write_no_shortcircuit (fun _ t => t) 0 0 5 sW rfl
  refine ⟨rfl, h.2.1, (h.2.2.1 4 ?_).1, h.2.2.2 (fun j => by simp) 4 ?_⟩
  · simp
  · simp

/-- The ids accumulated in `Signal.batchQueue` by a sequence of batched
writes, starting from whatever the record already held. -/
def accIds (writes : List (Nat × Int)) (q : List Nat) : List Nat :=
  writes.foldl (fun q w => addId w.1 q) q

/-- Inside an active batch, the setter only stores the value and records
the signal id: the graph and the scheduler are untouched and batch mode
stays on. -/
theorem runWrites_in_batch (runFn : Nat → GSt → GSt) (fuel : Nat) (writes : List (Nat × Int)) :
    ∀ t : GSt, t.batchMode = true →
      (runWrites runFn fuel writes t).batchMode = true ∧
      (runWrites runFn fuel writes t).batchQueue = accIds writes t.batchQueue ∧
      (runWrites runFn fuel writes t).nodes = t.nodes ∧
      (runWrites runFn fuel writes t).queueIndex = t.queueIndex ∧
      (runWrites runFn fuel writes t).queue = t.queue := by
  induction writes with
  | nil => intro t ht; exact ⟨ht, rfl, rfl, rfl, rfl⟩
  | cons w writes ih =>
    intro t ht
    have hset : setValue runFn fuel w.1 w.2 t =
        { storeValue w.1 w.2 t with batchQueue := addId w.1 t.batchQueue } := by
      simp [setValue, storeValue, ht]
    rw [runWrites, List.foldl_cons, hset]
    have := ih { storeValue w.1 w.2 t with batchQueue := addId w.1 t.batchQueue } ht
    rw [runWrites] at this
    exact this

theorem dd_next (n : Nat) (t : GSt) (x : Nat) :
    ((dirtyDownstream n t).nodes x).next = (t.nodes x).next := by
  unfold dirtyDownstream
  rw [foldl_markStep_nodes]
  by_cases h : x ∈ (t.nodes n).next <;> simp [h]

theorem dd_dirty (n : Nat) (t : GSt) (x : Nat) :
    (((dirtyDownstream n t).nodes x).dirty = true ↔
      (t.nodes x).dirty = true ∨ x ∈ (t.nodes n).next) := by
  unfold dirtyDownstream
  rw [foldl_markStep_nodes]
  by_cases h : x ∈ (t.nodes n).next <;> simp [h]

theorem dd_queueIndex (n : Nat) (t : GSt) (i : Nat) :
    (i ∈ (dirtyDownstream n t).queueIndex ↔ i ∈ t.queueIndex ∨ i ∈ (t.nodes n).next) := by
  unfold dirtyDownstream
  rw [foldl_markStep_queueIndex]

theorem foldl_dd_next (L : List Nat) :
    ∀ (t : GSt) (x : Nat),
      ((L.foldl (fun t n => dirtyDownstream n t) t).nodes x).next = (t.nodes x).next := by
  induction L with
  | nil => intro t x; rfl
  | cons m L ih => intro t x; rw [List.foldl_cons, ih, dd_next]

theorem foldl_dd_dirty (L : List Nat) :
    ∀ (t : GSt) (x : Nat),
      (((L.foldl (fun t n => dirtyDownstream n t) t).nodes x).dirty = true ↔
        (t.nodes x).dirty = true ∨ ∃ m ∈ L, x ∈ (t.nodes m).next) := by
  induction L with
  | nil => intro t x; simp
  | cons m L ih =>
    intro t x
    rw [List.foldl_cons, ih]
    simp only [dd_dirty, dd_next, List.mem_cons, exists_eq_or_imp]
    tauto

theorem foldl_dd_queueIndex (L : List Nat) :
    ∀ (t : GSt) (i : Nat),
      (i ∈ (L.foldl (fun t n => dirtyDownstream n t) t).queueIndex ↔
        i ∈ t.queueIndex ∨ ∃ m ∈ L, i ∈ (t.nodes m).next) := by
  induction L with
  | nil => intro t i; simp
  | cons m L ih =>
    intro t i
    rw [List.foldl_cons, ih]
    simp only [dd_queueIndex, dd_next, List.mem_cons, exists_eq_or_imp]
    tauto

theorem foldl_dd_batch (L : List Nat) :
    ∀ t : GSt, (L.foldl (fun t n => dirtyDownstream n t) t).batchMode = t.batchMode ∧
      (L.foldl (fun t n => dirtyDownstream n t) t).batchQueue = t.batchQueue := by
  induction L with
  | nil => intro t; exact ⟨rfl, rfl⟩
  | cons m L ih =>
    intro t
    rw [List.foldl_cons]
    obtain ⟨h1, h2⟩ := ih (dirtyDownstream m t)
    have hs := foldl_markStep_same ((t.nodes m).next) t
    exact ⟨h1.trans hs.2.2.1, h2.trans hs.2.2.2⟩

/-- C2 amended: each `Signal.batch` call performs exactly one scheduler
drain after the body's writes (`batch` is the pre-drain phase followed
by a single `autoRun`), but the pending-signal record is never cleared:
after the phase, `batchQueue` holds its previous content plus the ids
written during this call, batch mode is off, and the nodes marked dirty
and scheduled are exactly those already so plus the ones downstream of
some signal in that accumulated record — not merely of the signals
written during this call. -/
theorem batch_one_drain_accumulated_queue (runFn : Nat → GSt → GSt) (fuel : Nat)
    (writes : List (Nat × Int)) (s : GSt) :
    batch runFn fuel writes s = autoRun runFn fuel (batchPhase runFn fuel writes s) ∧
    (batchPhase runFn fuel writes s).batchMode = false ∧
    (batchPhase runFn fuel writes s).batchQueue = accIds writes s.batchQueue ∧
    (∀ x, (((batchPhase runFn fuel writes s).nodes x).dirty = true ↔
      (s.nodes x).dirty = true ∨ ∃ m ∈ accIds writes s.batchQueue, x ∈ (s.nodes m).next)) ∧
    (∀ i, (i ∈ (batchPhase runFn fuel writes s).queueIndex ↔
      i ∈ s.queueIndex ∨ ∃ m ∈ accIds writes s.batchQueue, i ∈ (s.nodes m).next)) := by
  have h2 := runWrites_in_batch runFn fuel writes { s with batchMode := true } rfl
  have hph : batchPhase runFn fuel writes s =
      ({ runWrites runFn fuel writes { s with batchMode := true } with
          batchMode := false } : GSt).batchQueue.foldl (fun t n => dirtyDownstream n t)
        { runWrites runFn fuel writes { s with batchMode := true } with batchMode := false } :=
    rfl
  have hn3 : (runWrites runFn fuel writes { s with batchMode := true }).nodes = s.nodes :=
    h2.2.2.1
  have hb3 : (runWrites runFn fuel writes { s with batchMode := true }).batchQueue =
      accIds writes s.batchQueue := h2.2.1
  have hq3 : (runWrites runFn fuel writes { s with batchMode := true }).queueIndex =
      s.queueIndex := h2.2.2.2.1
  refine ⟨rfl, ?_, ?_, ?_, ?_⟩
  · rw [hph, (foldl_dd_batch _ _).1]
  · rw [hph, (foldl_dd_batch _ _).2]
    exact hb3
  · intro x
    rw [hph, foldl_dd_dirty]
    rw [show ({ runWrites runFn fuel writes { s with batchMode := true } with
      batchMode := false } : GSt).nodes = s.nodes from hn3]
    rw [show ({ runWrites runFn fuel writes { s with batchMode := true } with
      batchMode := false } : GSt).batchQueue = accIds writes s.batchQueue from hb3]
  · intro i
    rw [hph, foldl_dd_queueIndex]
    rw [show ({ runWrites runFn fuel writes { s with batchMode := true } with
      batchMode := false } : GSt).nodes = s.nodes from hn3]
    rw [show ({ runWrites runFn fuel writes { s with batchMode := true } with
      batchMode := false } : GSt).batchQueue = accIds writes s.batchQueue from hb3]
    rw [show ({ runWrites runFn fuel writes { s with batchMode := true } with
      batchMode := false } : GSt).queueIndex = s.queueIndex from hq3]

/-- The `run()` behaviour of the counterexample's downstream nodes: the
base `EffectNode.run`, which just clears `dirty` (the nodes read
nothing, so running them has no further effect on this state). -/
def runFn0 : Nat → GSt → GSt := fun nid t => baseRun nid t

/-- Initial state for the C2 counterexample: signal 0 with downstream
node 10, signal 1 with downstream node 11, empty scheduler, no batch
active. -/
def cexSt0 : GSt :=
  { nodes := fun i =>
      if i = 0 then { GNode.init with next := [10] }
      else if i = 1 then { GNode.init with next := [11] }
      else GNode.init,
    stack := [], values := fun _ => 0, calls := fun _ => 0, running := fun _ => false,
    destroy := fun _ => none, cleanups := fun _ => 0, queueIndex := [], queue := [],
    batchMode := false, batchQueue := [], trace := [] }

/-- C2 counterexample: after a batch that writes only signal 0, the
pending-signal record still holds id 0 instead of being empty; a second
batch that writes only signal 1 then marks and schedules node 10 — the
downstream of signal 0, which was not written during that call — and
its single drain runs node 10 a second time (trace `[10, 11, 10]`). -/
theorem batch_queue_persists_counterexample :
    (batch runFn0 4 [(0, 5)] cexSt0).batchQueue = [0] ∧
    ((batchPhase runFn0 4 [(1, 6)] (batch runFn0 4 [(0, 5)] cexSt0)).nodes 10).dirty = true ∧
    10 ∈ (batchPhase runFn0 4 [(1, 6)] (batch runFn0 4 [(0, 5)] cexSt0)).queueIndex ∧
    (batch runFn0 4 [(1, 6)] (batch runFn0 4 [(0, 5)] cexSt0)).trace = [10, 11, 10] := by
  refine ⟨rfl, rfl, ?_, rfl⟩
  decide

/-! ## Refinement of the old revision's write path (claim C10) -/

theorem sortQueueO_erase (s : GSt) : Old.sortQueueO (erase s) = sortQueue s := rfl

theorem schedRunStep_erase (s : GSt) :
    Old.schedRunStep (erase s) = Option.map (fun p => (p.1, erase p.2)) (autoRunStep s) := by
  unfold Old.schedRunStep autoRunStep
  rw [show (erase s).queue = s.queue from rfl, sortQueueO_erase]
  by_cases he : s.queue.isEmpty
  · simp [he]
  · simp only [he, if_false]
    cases hL : (sortQueue s).getLast? with
    | none => rfl
    | some nid => rfl

theorem schedRun_erase (runFn : Nat → GSt → GSt) (runFnO : Nat → Old.OSt → Old.OSt)
    (hr : ∀ (nid : Nat) (t : GSt), erase (runFn nid t) = runFnO nid (erase t)) :
    ∀ (fuel : Nat) (s : GSt),
      Old.schedRun runFnO fuel (erase s) = erase (autoRun runFn fuel s) := by
  intro fuel
  induction fuel with
  | zero => intro s; rfl
  | succ fuel ih =>
    intro s
    rw [Old.schedRun, autoRun, schedRunStep_erase s]
    cases h : autoRunStep s with
    | none => rfl
    | some p =>
      obtain ⟨nid, s'⟩ := p
      simp only [Option.map_some]
      rw [← ih (runFn nid { s' with trace := s'.trace ++ [nid] }), hr]
      rfl

theorem markStep_erase (t : GSt) (n : Nat) :
    erase (markStep t n) = Old.markAndAdd (erase t) n := by
  by_cases h : n ∈ t.queueIndex
  · simp only [markStep, Old.markAndAdd, addEffectTask, Old.add,
      show (erase t).queueIndex = t.queueIndex from rfl, h, if_true]
    rfl
  · simp only [markStep, Old.markAndAdd, addEffectTask, Old.add,
      show (erase t).queueIndex = t.queueIndex from rfl, h, if_false]
    rfl

theorem foldl_markStep_erase (L : List Nat) :
    ∀ t : GSt, erase (L.foldl markStep t) = L.foldl Old.markAndAdd (erase t) := by
  induction L with
  | nil => intro t; rfl
  | cons a L ih =>
    intro t
    rw [List.foldl_cons, List.foldl_cons, ih, markStep_erase]

theorem dirtyDownstream_erase (self : Nat) (s : GSt) :
    erase (dirtyDownstream self s) =
      (((erase s).nodes self).next).foldl Old.markAndAdd (erase s) := by
  unfold dirtyDownstream
  rw [foldl_markStep_erase]
  rfl

/-- C10: with batch mode inactive, the new revision's `Signal.value`
setter (store, `dirtyDownstream()`, then `schedule.autoRun()` as a
separate step) produces exactly the same final state — same node table,
values, scheduler state, and the same nodes run in the same order (the
`trace`) — as the old revision's setter (store, then `notifyAll()`,
which marks, submits and drains internally), provided the two revisions'
`node.run()` dispatches correspond (in the source they are identical
code). -/
theorem nonbatch_write_refines_old (runFn : Nat → GSt → GSt)
    (runFnO : Nat → Old.OSt → Old.OSt)
    (hr : ∀ (nid : Nat) (t : GSt), erase (runFn nid t) = runFnO nid (erase t))
    (fuel sid : Nat) (v : Int) (s : GSt) (hb : s.batchMode = false) :
    erase (setValue runFn fuel sid v s) = Old.setValueO runFnO fuel sid v (erase s) := by
  have hnew : setValue runFn fuel sid v s =
      autoRun runFn fuel (dirtyDownstream sid (storeValue sid v s)) := by
    simp [setValue, show (storeValue sid v s).batchMode = false from hb]
  rw [hnew]
  unfold Old.setValueO Old.notifyAll
  rw [← schedRun_erase runFn runFnO hr fuel]
  rw [dirtyDownstream_erase]
  rfl

/-- The old revision's base `run()` (part_000 lines 102-104) as a
scheduler oracle: clear the run node's dirty flag. -/
def runFnO0 : Nat → Old.OSt → Old.OSt :=
  fun nid t => { t with nodes := upd t.nodes nid (fun n => { n with dirty := false }) }

/-- C10 witness: the concrete write of 5 to signal 0 in the two-signal
world, with the base `run()` on both sides. -/
theorem nonbatch_write_refines_old_witness :
    erase (setValue runFn0 4 0 5 cexSt0) = Old.setValueO runFnO0 4 0 5 (erase cexSt0) :=
  nonbatch_write_refines_old runFn0 runFnO0 (fun _ _ => rfl) 4 0 5 cexSt0 rfl

end Signals
